import Mathlib

/-!
Verification of the continuous-factor algebra of this repository
(Gaussian Bayesian network factors: generic continuous factors, joint
Gaussian distributions, canonical factors and linear Gaussian CPDs).

The repository ships a notebook that exercises the pgmpy classes
`ContinuousFactor`, `GaussianDistribution`, `CanonicalDistribution`,
`LinearGaussianCPD` and `LinearGaussianBayesianNetwork.to_joint_gaussian`
and records their outputs.  The class implementations themselves are not
part of the repository sources, so every definition below is modelled
from the specification (and, where the notebook records behaviour that
differs, from the recorded notebook outputs).  Exact rational arithmetic
stands in for the floating point arithmetic of the original; the
concrete notebook scenarios all have exact rational answers, which the
models reproduce bit for bit.

Two layers are developed:

* an executable, list-based layer over `ℚ` mirroring the positional
  scope/parameter representation of the classes (used for the concrete
  notebook scenarios), and
* a block-matrix layer over `ℝ` using Mathlib matrices indexed by a sum
  type (used for the general linear-algebra facts: the
  canonical/Gaussian round trip and the Schur-complement
  marginalization).
-/

/-! ## List-based linear algebra helpers (executable, over `ℚ`) -/

/-- Entry `i j` of a row-major list matrix, `0` outside the stored range. -/
def entryL (M : List (List ℚ)) (i j : Nat) : ℚ :=
  (M.getD i []).getD j 0

/-- Entry `i` of a list vector, `0` outside the stored range. -/
def getV (v : List ℚ) (i : Nat) : ℚ :=
  v.getD i 0

/-- Elementwise sum of two list matrices. -/
def matAddL (A B : List (List ℚ)) : List (List ℚ) :=
  List.zipWith (fun r s => List.zipWith (· + ·) r s) A B

/-- Elementwise sum of two list vectors. -/
def vecAddL (a b : List ℚ) : List ℚ :=
  List.zipWith (· + ·) a b

/-- Elementwise difference of two list vectors. -/
def vecSubL (a b : List ℚ) : List ℚ :=
  List.zipWith (· - ·) a b

/-- Matrix-vector product for list matrices. -/
def matVecL (M : List (List ℚ)) (v : List ℚ) : List ℚ :=
  M.map (fun r => (List.zipWith (· * ·) r v).sum)

/-- Dot product of two list vectors. -/
def dotL (a b : List ℚ) : ℚ :=
  (List.zipWith (· * ·) a b).sum

/-- Removes the entry at position `j` from a list. -/
def dropNth {α : Type} (l : List α) (j : Nat) : List α :=
  (l.take j) ++ (l.drop (j + 1))

/-- Laplace expansion of the determinant along the first row, recursing
structurally on the row count passed as the first argument. -/
def detN : Nat → List (List ℚ) → ℚ
  | 0, _ => 1
  | _ + 1, [] => 1
  | n + 1, r :: rest =>
      ((List.range r.length).map
        (fun j => (-1 : ℚ) ^ j * r.getD j 0 * detN n (rest.map (fun s => dropNth s j)))).sum

/-- Determinant of a square list matrix. -/
def detL (M : List (List ℚ)) : ℚ :=
  detN M.length M

/-- Matrix inverse of a square list matrix via the adjugate,
`(A⁻¹)ᵢⱼ = (-1)^(i+j) det(minor j i) / det A`. -/
def matInvL (M : List (List ℚ)) : List (List ℚ) :=
  let n := M.length
  let d := detL M
  (List.range n).map (fun i =>
    (List.range n).map (fun j =>
      (-1 : ℚ) ^ (i + j) * detL ((dropNth M j).map (fun r => dropNth r i)) / d))

/-! ## Error taxonomy (spec section 7) -/

/-- Modelled from the spec: the error taxonomy of section 7 for the factor
algebra (pgmpy raises exceptions; the implementations are not in the
repository sources). -/
inductive FactorError : Type
  | invalidArity
  | unknownVariable
  | scopeMismatch
  | undefinedOperation
  | singularCovariance
  | missingParent
  | cyclicDependency
deriving DecidableEq, Repr

/-! ## Canonical factors (list layer) -/

/-- Modelled from the spec: pgmpy's `CanonicalDistribution` (whose
implementation is not in the repository sources): an ordered variable
scope together with the precision matrix `K`, information vector `h` and
scalar `g` of the canonical form `exp(-0.5 xᵀKx + hᵀx + g)`.  Parameters
are positional in scope order, as in the source class. -/
structure CanonicalDistribution : Type where
  vars : List String
  K : List (List ℚ)
  h : List ℚ
  g : ℚ
deriving DecidableEq, Repr

/-- Scope union used by the factor products: the left operand's scope in
its original order, followed by the right operand's variables absent from
it, in the right operand's order. -/
def unionScope (s1 s2 : List String) : List String :=
  s1 ++ s2.filter (fun v => decide (v ∉ s1))

/-- Position of a variable inside a scope, if present. -/
def indexIn (s : List String) (v : String) : Option Nat :=
  s.findIdx? (fun u => u = v)

/-- Zero-pads a matrix given over scope `sub` to the dimensionality of
scope `s`: rows/columns of variables absent from `sub` are zero. -/
def padK (s sub : List String) (K : List (List ℚ)) : List (List ℚ) :=
  s.map (fun vi =>
    s.map (fun vj =>
      match indexIn sub vi, indexIn sub vj with
      | some a, some b => entryL K a b
      | _, _ => 0))

/-- Zero-pads a vector given over scope `sub` to the dimensionality of
scope `s`. -/
def padH (s sub : List String) (h : List ℚ) : List ℚ :=
  s.map (fun vi =>
    match indexIn sub vi with
    | some a => getV h a
    | none => 0)

/-- Modelled from the spec: `CanonicalDistribution` product (`__mul__`):
scopes are unioned, each operand's `K` and `h` are zero-padded to the
union scope and summed elementwise, and the `g` scalars are summed.  No
matrix inversion takes place. -/
def CanonicalDistribution.product (φ1 φ2 : CanonicalDistribution) : CanonicalDistribution :=
  let s := unionScope φ1.vars φ2.vars
  { vars := s
    K := matAddL (padK s φ1.vars φ1.K) (padK s φ2.vars φ2.K)
    h := vecAddL (padH s φ1.vars φ1.h) (padH s φ2.vars φ2.h)
    g := φ1.g + φ2.g }

/-- Modelled from the spec: `CanonicalDistribution.to_joint_gaussian`
covariance, `Σ = K⁻¹`. -/
def CanonicalDistribution.jointCovariance (φ : CanonicalDistribution) : List (List ℚ) :=
  matInvL φ.K

/-- Modelled from the spec: `CanonicalDistribution.to_joint_gaussian`
mean, `μ = K⁻¹ h`. -/
def CanonicalDistribution.jointMean (φ : CanonicalDistribution) : List ℚ :=
  matVecL (matInvL φ.K) φ.h

/-- The notebook's canonical factor `phi1` over `{x1, x2, x3}`. -/
def phi1 : CanonicalDistribution :=
  { vars := ["x1", "x2", "x3"]
    K := [[1, -1, 0], [-1, 4, -2], [0, -2, 4]]
    h := [1, 4, -1]
    g := -2 }

/-- The notebook's canonical factor `phi2` over `{x1, x2}`. -/
def phi2 : CanonicalDistribution :=
  { vars := ["x1", "x2"]
    K := [[3, -2], [-2, 4]]
    h := [5, -1]
    g := 1 }

/-- C2: the CanonicalFactor product of `(K1,h1,g1)` over `{x1,x2,x3}` and
`(K2,h2,g2)` over `{x1,x2}` has scope `{x1,x2,x3}`, `h = [6,3,-1]`,
`K = [[4,-3,0],[-3,8,-2],[0,-2,4]]` and `g = -1`; the product zero-pads
each operand's `K` and `h` to the union scope and sums the padded
parameters elementwise, summing the `g` scalars, with no matrix
inversion. -/
theorem C2_canonical_product :
    ((phi1.product phi2).vars = ["x1", "x2", "x3"] ∧
     (phi1.product phi2).K = [[4, -3, 0], [-3, 8, -2], [0, -2, 4]] ∧
     (phi1.product phi2).h = [6, 3, -1] ∧
     (phi1.product phi2).g = -1) ∧
    ∀ a b : CanonicalDistribution,
      (a.product b).K =
          matAddL (padK (unionScope a.vars b.vars) a.vars a.K)
            (padK (unionScope a.vars b.vars) b.vars b.K) ∧
      (a.product b).h =
          vecAddL (padH (unionScope a.vars b.vars) a.vars a.h)
            (padH (unionScope a.vars b.vars) b.vars b.h) ∧
      (a.product b).g = a.g + b.g := by
  refine ⟨⟨?_, ?_, ?_, ?_⟩, fun a b => ⟨rfl, rfl, rfl⟩⟩ <;>
    · simp +decide [CanonicalDistribution.product, phi1, phi2, unionScope, padK, padH,
        matAddL, vecAddL, entryL, getV, indexIn, List.findIdx?]
      try norm_num

/-! ## Generic continuous factors (list layer)

The notebook constructs `ContinuousFactor` objects from a scope and a
positional density function and calls `scope`, `assignment`, `reduce`,
`marginalize` and the `*` / `/` operators on them.  Densities are
modelled as rational-valued functions of the positional argument list;
the notebook evaluation points used below all have rational values.

The notebook records (cell 12) that after `custom_factor.reduce([('y', 2)])`
the receiver itself answers `scope() = ['x', 'z']` and
`assignment(1, 3) = 24.0`: `reduce` updates the receiver in place.  The
stateful receiver is modelled by explicit state passing: `reduce` yields
the receiver's post-state. -/

/-- Modelled from the spec: pgmpy's `ContinuousFactor` (whose
implementation is not in the repository sources): an ordered variable
scope and a density function taking one real argument per scope variable,
in scope order. -/
structure ContinuousFactor : Type where
  vars : List String
  pdf : List ℚ → ℚ

/-- Modelled from the spec: `scope()` returns the current ordered
variable list. -/
def ContinuousFactor.scope (f : ContinuousFactor) : List String :=
  f.vars

/-- Modelled from the spec: `assignment` evaluates the density at one
value per scope variable, in scope order. -/
def ContinuousFactor.assignment (f : ContinuousFactor) (values : List ℚ) : ℚ :=
  f.pdf values

/-- Interleaves assigned values and free values back into a full
positional argument list for the original scope: an assigned variable
contributes its fixed value, an unassigned one consumes the next free
value. -/
def mergeArgs : List String → List (String × ℚ) → List ℚ → List ℚ
  | [], _, _ => []
  | v :: vs, asg, free =>
      match asg.lookup v with
      | some c => c :: mergeArgs vs asg free
      | none => free.headD 0 :: mergeArgs vs asg free.tail

/-- Values of a full positional argument list at the unassigned
positions of the scope (the arguments the reduced factor expects). -/
def extractFree : List String → List (String × ℚ) → List ℚ → List ℚ
  | [], _, _ => []
  | v :: vs, asg, full =>
      match asg.lookup v with
      | some _ => extractFree vs asg full.tail
      | none => full.headD 0 :: extractFree vs asg full.tail

/-- Modelled from the spec and the notebook: `reduce(assignments)`
removes the assigned variables from the scope and substitutes the fixed
values into the corresponding argument positions of the density.  pgmpy
performs this in place by default (notebook cell 12); the returned value
is the receiver's post-state. -/
def ContinuousFactor.reduce (f : ContinuousFactor) (assignments : List (String × ℚ)) :
    ContinuousFactor :=
  { vars := f.vars.filter (fun v => (assignments.lookup v).isNone)
    pdf := fun free => f.pdf (mergeArgs f.vars assignments free) }

/-- Merging the extracted free values of a full argument list with the
assigned values reconstitutes the full list, provided the full list is
consistent with the assignments at the assigned positions. -/
theorem mergeArgs_extractFree (scope : List String) (asg : List (String × ℚ)) :
    ∀ full : List ℚ, full.length = scope.length →
    (∀ i c, asg.lookup (scope.getD i "") = some c → full.getD i 0 = c) →
    mergeArgs scope asg (extractFree scope asg full) = full := by
  induction scope with
  | nil =>
      intro full hlen _
      cases full with
      | nil => rfl
      | cons a fs => simp at hlen
  | cons v vs ih =>
      intro full hlen hcons
      cases full with
      | nil => simp at hlen
      | cons a fs =>
          have hlen2 : fs.length = vs.length := by simpa using hlen
          have hcons2 : ∀ i c, asg.lookup (vs.getD i "") = some c → fs.getD i 0 = c := by
            intro i c hi
            exact hcons (i + 1) c hi
          cases hv : asg.lookup v with
          | some c =>
              have ha : a = c := hcons 0 c (by simpa using hv)
              simp [mergeArgs, extractFree, hv, ha, ih fs hlen2 hcons2]
          | none =>
              simp [mergeArgs, extractFree, hv, ih fs hlen2 hcons2]

/-- C9: for every ContinuousFactor and every assignment list whose
variables are all in scope, the reduced factor's density at the
remaining free arguments equals the original density with the fixed
values substituted at their argument positions (the free arguments being
the full argument list with the assigned positions dropped). -/
theorem C9_reduce_substitutes (f : ContinuousFactor) (asg : List (String × ℚ))
    (hin : ∀ p ∈ asg, p.1 ∈ f.vars) (full : List ℚ)
    (hlen : full.length = f.vars.length)
    (hcons : ∀ i c, asg.lookup (f.vars.getD i "") = some c → full.getD i 0 = c) :
    (f.reduce asg).pdf (extractFree f.vars asg full) = f.pdf full := by
  have h := mergeArgs_extractFree f.vars asg full hlen hcons
  simp [ContinuousFactor.reduce, h]

/-- The notebook's `custom_factor` over `['x', 'y', 'z']`.  The notebook
density is `custom_pdf(x, y, z) = z·x¹·y²/beta(x, y)`; at the arguments
the notebook evaluates (`beta(1, 2) = 1/2`) this agrees with the
rational density `2·x·y²·z` used here. -/
def customFactor : ContinuousFactor :=
  { vars := ["x", "y", "z"]
    pdf := fun l => 2 * getV l 0 * (getV l 1) ^ 2 * getV l 2 }

/-- Witness for C9 at the notebook's cell-12 scenario: reducing the
factor over `[x, y, z]` by `(y, 2)` and evaluating at `(x=1, z=3)`
equals the original density at `(1, 2, 3)`, which is `24`. -/
theorem C9_reduce_substitutes_witness :
    extractFree customFactor.vars [("y", 2)] [1, 2, 3] = [1, 3] ∧
    (customFactor.reduce [("y", 2)]).pdf [1, 3] = customFactor.pdf [1, 2, 3] ∧
    customFactor.pdf [1, 2, 3] = 24 := by
  have hex : extractFree customFactor.vars [("y", (2 : ℚ))] [1, 2, 3] = [1, 3] := by
    simp +decide [customFactor, extractFree, List.lookup]
  refine ⟨hex, ?_, by norm_num [customFactor, getV]⟩
  have h := C9_reduce_substitutes customFactor [("y", 2)]
    (by simp +decide [customFactor]) [1, 2, 3] (by simp [customFactor])
    (by
      intro i c hi
      match i with
      | 0 => simp +decide [customFactor, List.lookup] at hi
      | 1 =>
          simp +decide [customFactor, List.lookup] at hi
          simp [hi]
      | 2 => simp +decide [customFactor, List.lookup] at hi
      | (n + 3) => simp +decide [customFactor, List.lookup] at hi)
  rw [hex] at h
  exact h

/-- C5 counterexample: the claim says `reduce` leaves the receiver's
scope and density unchanged, but the notebook (cell 12) records that
after `custom_factor.reduce([('y', 2)])` the receiver's scope is
`['x', 'z']`, not `['x', 'y', 'z']`: the receiver's post-state differs
from its pre-state. -/
theorem C5_counterexample :
    (customFactor.reduce [("y", 2)]).vars ≠ customFactor.vars := by
  simp +decide [customFactor, ContinuousFactor.reduce, List.lookup]

/-- C5 amended: `reduce` (pgmpy's default in-place behaviour, as the
notebook records) updates the receiver: afterwards its scope omits the
assigned variables and its density substitutes the assigned values; at
the notebook's cell-12 scenario the post-state has scope `['x', 'z']`
and density `24` at `(1, 3)`. -/
theorem C5_reduce_updates_receiver :
    (∀ (f : ContinuousFactor) (asg : List (String × ℚ)),
      (f.reduce asg).vars = f.vars.filter (fun v => (asg.lookup v).isNone) ∧
      (f.reduce asg).pdf = fun free => f.pdf (mergeArgs f.vars asg free)) ∧
    (customFactor.reduce [("y", 2)]).vars = ["x", "z"] ∧
    (customFactor.reduce [("y", 2)]).pdf [1, 3] = 24 := by
  refine ⟨fun f asg => ⟨rfl, rfl⟩, ?_, ?_⟩
  · simp +decide [customFactor, ContinuousFactor.reduce, List.lookup]
  · simp +decide [customFactor, ContinuousFactor.reduce, mergeArgs, List.lookup, getV]
    try norm_num

/-! ## Generic factor division (spec section 4.1) -/

/-- A factor whose pointwise evaluation can fail (the quotient of two
generic factors: evaluation fails where the divisor density is zero). -/
structure FallibleFactor : Type where
  vars : List String
  pdf : List ℚ → Except FactorError ℚ

/-- Projects a positional argument list given in the order of `fromScope`
onto the order of `toScope` (the divisor's own scope). -/
def projectTo (fromScope toScope : List String) (vals : List ℚ) : List ℚ :=
  toScope.map (fun v =>
    match indexIn fromScope v with
    | some i => getV vals i
    | none => 0)

/-- Modelled from the spec: generic factor division.  The divisor's scope
must be a subset of the dividend's, else the operation fails with
ScopeMismatch; the quotient factor evaluates the pointwise quotient by
projecting the argument vector onto the divisor's scope, and fails with
UndefinedOperation where the divisor density is exactly zero. -/
def ContinuousFactor.divide (f g : ContinuousFactor) :
    Except FactorError FallibleFactor :=
  if g.vars.all (fun v => f.vars.contains v) then
    Except.ok
      { vars := f.vars
        pdf := fun vals =>
          if g.pdf (projectTo f.vars g.vars vals) = 0 then
            Except.error FactorError.undefinedOperation
          else
            Except.ok (f.pdf vals / g.pdf (projectTo f.vars g.vars vals)) }
  else
    Except.error FactorError.scopeMismatch

/-- C7: if the divisor's density evaluates to exactly zero at a query
point, evaluating the quotient factor there fails with
UndefinedOperation rather than returning any numeric value. -/
theorem C7_divide_by_zero_density (f g : ContinuousFactor) (q : FallibleFactor)
    (hq : f.divide g = Except.ok q) (vals : List ℚ)
    (h0 : g.pdf (projectTo f.vars g.vars vals) = 0) :
    q.pdf vals = Except.error FactorError.undefinedOperation := by
  rw [ContinuousFactor.divide] at hq
  split at hq
  · cases hq
    simp [h0]
  · simp at hq

/-- The dividend used in the C7 witness: the factor over `['x']` with
density `x`. -/
def wDividend : ContinuousFactor :=
  { vars := ["x"], pdf := fun l => getV l 0 }

/-- The divisor used in the C7 witness: also the factor over `['x']`
with density `x`, which is exactly zero at `x = 0`. -/
def wDivisor : ContinuousFactor :=
  { vars := ["x"], pdf := fun l => getV l 0 }

/-- The quotient factor `wDividend / wDivisor` as returned by `divide`. -/
def wQuotient : FallibleFactor :=
  { vars := wDividend.vars
    pdf := fun vals =>
      if wDivisor.pdf (projectTo wDividend.vars wDivisor.vars vals) = 0 then
        Except.error FactorError.undefinedOperation
      else
        Except.ok (wDividend.pdf vals /
          wDivisor.pdf (projectTo wDividend.vars wDivisor.vars vals)) }

/-- Witness for C7: dividing the factor with density `x` by itself and
evaluating the quotient at `x = 0`, where the divisor density is zero,
fails with UndefinedOperation. -/
theorem C7_divide_by_zero_density_witness :
    wDividend.divide wDivisor = Except.ok wQuotient ∧
    wDivisor.pdf (projectTo wDividend.vars wDivisor.vars [0]) = 0 ∧
    wQuotient.pdf [0] = Except.error FactorError.undefinedOperation := by
  have hq : wDividend.divide wDivisor = Except.ok wQuotient := by
    simp +decide [ContinuousFactor.divide, wDividend, wDivisor, wQuotient]
  have h0 : wDivisor.pdf (projectTo wDividend.vars wDivisor.vars [0]) = 0 := by
    simp +decide [wDividend, wDivisor, projectTo, indexIn, List.findIdx?, getV]
  exact ⟨hq, h0, C7_divide_by_zero_density wDividend wDivisor wQuotient hq [0] h0⟩

/-! ## Joint Gaussian distributions (list layer) -/

/-- Modelled from the spec: pgmpy's `GaussianDistribution` (whose
implementation is not in the repository sources): an ordered variable
scope with a mean vector and covariance matrix, positional in scope
order.  The notebook (cells 26 to 28) shows that construction stores the
given parameters as they are: the non-symmetric matrix `[[2,3],[5,6]]`
is accepted as a covariance. -/
structure GaussianDistribution : Type where
  vars : List String
  mean : List ℚ
  covariance : List (List ℚ)
deriving DecidableEq, Repr

/-- Indices of the scope positions retained after removing the listed
variables. -/
def keepIdx (scope : List String) (toRemove : List String) : List Nat :=
  (List.range scope.length).filter (fun i => decide (scope.getD i "" ∉ toRemove))

/-- Modelled from the spec: `GaussianDistribution.marginalize` drops the
rows of the mean and the rows/columns of the covariance belonging to the
removed variables, keeping the retained indices in order. -/
def GaussianDistribution.marginalize (gd : GaussianDistribution) (toRemove : List String) :
    GaussianDistribution :=
  let ks := keepIdx gd.vars toRemove
  { vars := ks.map (fun i => gd.vars.getD i "")
    mean := ks.map (fun i => getV gd.mean i)
    covariance := ks.map (fun i => ks.map (fun j => entryL gd.covariance i j)) }

/-- Modelled from the spec: `GaussianDistribution.reduce` conditions on
observed values for a subset of variables with the standard Gaussian
conditioning formulas: partitioning into retained `Xa` and observed `Xb`
at values `xb`, the conditional has mean `μa + Σab·Σbb⁻¹·(xb − μb)` and
covariance `Σaa − Σab·Σbb⁻¹·Σba`, written entrywise over the retained
and observed scope positions. -/
def GaussianDistribution.reduce (gd : GaussianDistribution)
    (observations : List (String × ℚ)) : GaussianDistribution :=
  let ks := (List.range gd.vars.length).filter
    (fun i => decide (observations.lookup (gd.vars.getD i "") = none))
  let os := (List.range gd.vars.length).filter
    (fun i => decide (observations.lookup (gd.vars.getD i "") ≠ none))
  let SbbInv := matInvL (os.map (fun i => os.map (fun j => entryL gd.covariance i j)))
  let w := matVecL SbbInv
    (os.map (fun i => (observations.lookup (gd.vars.getD i "")).getD 0 - getV gd.mean i))
  { vars := ks.map (fun i => gd.vars.getD i "")
    mean := ks.map (fun i =>
      getV gd.mean i + dotL (os.map (fun l => entryL gd.covariance i l)) w)
    covariance := ks.map (fun i => ks.map (fun j =>
      entryL gd.covariance i j -
        dotL (os.map (fun l => entryL gd.covariance i l))
          (matVecL SbbInv (os.map (fun l => entryL gd.covariance l j))))) }

/-- Modelled from the spec: the `K` and `h` part of
`GaussianDistribution.to_canonical`, `K = Σ⁻¹` and `h = Σ⁻¹μ`.  The
scalar `g` of the conversion is transcendental (it involves `log` and
`π`; it is modelled exactly in the real-valued block layer below as
`MatrixModel.toCanonical`); since `to_joint_gaussian` discards `g`, the
product path through canonical form is independent of it and `0` is
stored here. -/
def GaussianDistribution.toCanonicalKH (gd : GaussianDistribution) : CanonicalDistribution :=
  { vars := gd.vars
    K := matInvL gd.covariance
    h := matVecL (matInvL gd.covariance) gd.mean
    g := 0 }

/-- Modelled from the spec: `CanonicalDistribution.to_joint_gaussian`,
`Σ = K⁻¹` and `μ = Σh`, discarding `g`. -/
def CanonicalDistribution.to_joint_gaussian (φ : CanonicalDistribution) : GaussianDistribution :=
  { vars := φ.vars
    mean := φ.jointMean
    covariance := φ.jointCovariance }

/-- Modelled from the spec: `GaussianDistribution` product (`__mul__`):
both operands are converted to canonical form, the canonical product is
taken, and the result is converted back. -/
def GaussianDistribution.product (a b : GaussianDistribution) : GaussianDistribution :=
  ((a.toCanonicalKH).product (b.toCanonicalKH)).to_joint_gaussian

/-- The notebook's `dis1` over `['x1', 'x2', 'x3']`. -/
def dis1 : GaussianDistribution :=
  { vars := ["x1", "x2", "x3"]
    mean := [1, -3, 4]
    covariance := [[4, 2, -2], [2, 5, -5], [-2, -5, 8]] }

/-- The notebook's `dis2` over `['x3', 'x4']`, constructed with the
non-symmetric matrix `[[2,3],[5,6]]` as covariance (cell 26). -/
def dis2 : GaussianDistribution :=
  { vars := ["x3", "x4"]
    mean := [1, 2]
    covariance := [[2, 3], [5, 6]] }

/-- C10: the scope of a factor product is the left operand's scope in
its original order followed by the right operand's variables absent from
the left operand, in the right operand's order; concretely, the product
of scopes `[x1,x2,x3]` and `[x3,x4]` (the notebook's `dis1 * dis2`) has
scope `[x1,x2,x3,x4]`, and the product of `[x1,x2,x3]` with `[x1,x2]`
(the notebook's `phi1 * phi2`) has scope `[x1,x2,x3]`. -/
theorem C10_product_scope_order :
    (∀ a b : GaussianDistribution,
      (a.product b).vars = a.vars ++ b.vars.filter (fun v => decide (v ∉ a.vars))) ∧
    (∀ a b : CanonicalDistribution,
      (a.product b).vars = a.vars ++ b.vars.filter (fun v => decide (v ∉ a.vars))) ∧
    (dis1.product dis2).vars = ["x1", "x2", "x3", "x4"] ∧
    (phi1.product phi2).vars = ["x1", "x2", "x3"] := by
  refine ⟨fun a b => rfl, fun a b => rfl, ?_, ?_⟩ <;>
    simp +decide [GaussianDistribution.product, CanonicalDistribution.product,
      CanonicalDistribution.to_joint_gaussian, GaussianDistribution.toCanonicalKH,
      unionScope, dis1, dis2, phi1, phi2]

/-- Symmetry of a list matrix on its stored index range. -/
def symmL (M : List (List ℚ)) : Prop :=
  ∀ i < M.length, ∀ j < M.length, entryL M i j = entryL M j i

/-- C6 counterexample: the notebook's `dis2` is constructed with the
non-symmetric covariance `[[2,3],[5,6]]`, and the recorded product
`dis1 * dis2` (cells 26 to 28) has a non-symmetric covariance as well:
entry `(2,3)` is `2.4` while entry `(3,2)` is `4`.  So it is not the
case that every `GaussianDistribution` has a symmetric covariance, nor
that construction and product cannot yield one. -/
theorem C6_counterexample :
    ¬ symmL dis2.covariance ∧
    ¬ symmL (dis1.product dis2).covariance ∧
    entryL (dis1.product dis2).covariance 2 3 = 12 / 5 ∧
    entryL (dis1.product dis2).covariance 3 2 = 4 := by
  have hK1 : matInvL dis1.covariance =
      [[5/16, -1/8, 0], [-1/8, 7/12, 1/3], [0, 1/3, 1/3]] := by
    simp only [dis1, matInvL, detL, detN, dropNth, List.range_succ, List.range_zero,
      List.map_nil, List.map_cons, List.map_append, List.sum_cons, List.sum_nil,
      List.length_cons, List.length_nil, List.getD_cons_zero, List.getD_cons_succ,
      List.take_succ_cons, List.take_zero, List.drop_succ_cons, List.drop_zero,
      List.nil_append, List.cons_append, List.getD_nil]
    norm_num
  have hK2 : matInvL dis2.covariance = [[-2, 1], [5/3, -2/3]] := by
    simp only [dis2, matInvL, detL, detN, dropNth, List.range_succ, List.range_zero,
      List.map_nil, List.map_cons, List.map_append, List.sum_cons, List.sum_nil,
      List.length_cons, List.length_nil, List.getD_cons_zero, List.getD_cons_succ,
      List.take_succ_cons, List.take_zero, List.drop_succ_cons, List.drop_zero,
      List.nil_append, List.cons_append, List.getD_nil]
    norm_num
  have hus : unionScope dis1.vars dis2.vars = ["x1", "x2", "x3", "x4"] := by decide
  have hi11 : indexIn dis1.vars "x1" = some 0 := by decide
  have hi12 : indexIn dis1.vars "x2" = some 1 := by decide
  have hi13 : indexIn dis1.vars "x3" = some 2 := by decide
  have hi14 : indexIn dis1.vars "x4" = none := by decide
  have hi21 : indexIn dis2.vars "x1" = none := by decide
  have hi22 : indexIn dis2.vars "x2" = none := by decide
  have hi23 : indexIn dis2.vars "x3" = some 0 := by decide
  have hi24 : indexIn dis2.vars "x4" = some 1 := by decide
  have hK : ((dis1.toCanonicalKH).product (dis2.toCanonicalKH)).K =
      [[5/16, -1/8, 0, 0], [-1/8, 7/12, 1/3, 0], [0, 1/3, -5/3, 1], [0, 0, 5/3, -2/3]] := by
    simp only [CanonicalDistribution.product, GaussianDistribution.toCanonicalKH,
      hus, hK1, hK2]
    simp only [padK, matAddL, List.map_cons, List.map_nil, hi11, hi12, hi13, hi14,
      hi21, hi22, hi23, hi24, List.zipWith_cons_cons, List.zipWith_nil_right,
      List.zipWith_nil_left, entryL, List.getD_cons_zero, List.getD_cons_succ,
      List.getD_nil]
    norm_num
  have hcov : (dis1.product dis2).covariance = matInvL
      [[5/16, -1/8, 0, 0], [-1/8, 7/12, 1/3, 0], [0, 1/3, -5/3, 1], [0, 0, 5/3, -2/3]] := by
    simp only [GaussianDistribution.product, CanonicalDistribution.to_joint_gaussian,
      CanonicalDistribution.jointCovariance, hK]
  have hinv : matInvL
      [[5/16, -1/8, 0, 0], [-1/8, 7/12, 1/3, 0], [0, 1/3, -5/3, 1], [0, 0, 5/3, -2/3]] =
      [[18/5, 1, -2/5, -3/5], [1, 5/2, -1, -3/2], [-2/5, -1, 8/5, 12/5],
        [-1, -5/2, 4, 9/2]] := by
    simp only [matInvL, detL, detN, dropNth, List.range_succ, List.range_zero,
      List.map_nil, List.map_cons, List.map_append, List.sum_cons, List.sum_nil,
      List.length_cons, List.length_nil, List.getD_cons_zero, List.getD_cons_succ,
      List.take_succ_cons, List.take_zero, List.drop_succ_cons, List.drop_zero,
      List.nil_append, List.cons_append, List.getD_nil]
    norm_num
  have hcov2 : (dis1.product dis2).covariance =
      [[18/5, 1, -2/5, -3/5], [1, 5/2, -1, -3/2], [-2/5, -1, 8/5, 12/5],
        [-1, -5/2, 4, 9/2]] := hcov.trans hinv
  have h23 : entryL (dis1.product dis2).covariance 2 3 = 12 / 5 := by
    rw [hcov2]; norm_num [entryL, List.getD]
  have h32 : entryL (dis1.product dis2).covariance 3 2 = 4 := by
    rw [hcov2]; norm_num [entryL, List.getD]
  have hlen : (dis1.product dis2).covariance.length = 4 := by
    rw [hcov2]; norm_num
  refine ⟨?_, ?_, h23, h32⟩
  · intro h
    have := h 0 (by norm_num [dis2]) 1 (by norm_num [dis2])
    rw [show entryL dis2.covariance 0 1 = 3 by norm_num [dis2, entryL],
      show entryL dis2.covariance 1 0 = 5 by norm_num [dis2, entryL]] at this
    norm_num at this
  · intro h
    have := h 2 (by rw [hlen]; norm_num) 3 (by rw [hlen]; norm_num)
    rw [h23, h32] at this
    norm_num at this

/-! ## Linear Gaussian CPDs and network synthesis (spec section 4.4) -/

/-- Modelled from the spec: pgmpy's `LinearGaussianCPD` (whose
implementation is not in the repository sources): a variable whose
conditional mean is the affine function `β0 + Σ βᵢ·evidenceᵢ` of its
parents, with constant conditional variance.  `beta` is `[β0, β1...βk]`
with the intercept first, as in the notebook's constructor calls; the
source attribute `variable` is named `var` here (`variable` is reserved
in Lean). -/
structure LinearGaussianCPD : Type where
  var : String
  beta : List ℚ
  variance : ℚ
  evidence : List String := []
deriving DecidableEq, Repr

/-- Positions of the parent variables in the current joint scope; `none`
if some parent is missing (the MissingParent condition of the spec). -/
def parentIdxs (scope : List String) : List String → Option (List Nat)
  | [] => some []
  | p :: ps =>
      match indexIn scope p, parentIdxs scope ps with
      | some i, some is => some (i :: is)
      | _, _ => none

/-- Modelled from the spec, section 4.4 step 2: extends the joint
distribution built so far with one more variable:
`μ_Y = β0 + Σ βᵢ·μ(pᵢ)`, the new covariance column
`Cov[i, Y] = Σⱼ βⱼ·Σ[i, pⱼ]` for every i already in scope, and
`Var[Y] = σ² + βᵀ·Σ_pp·β`; fails when a parent is not yet present. -/
def addVariable (gd : GaussianDistribution) (cpd : LinearGaussianCPD) :
    Option GaussianDistribution :=
  match parentIdxs gd.vars cpd.evidence with
  | none => none
  | some pidx =>
      let βs := cpd.beta.drop 1
      let β0 := getV cpd.beta 0
      let μY := β0 + (List.zipWith (fun b j => b * getV gd.mean j) βs pidx).sum
      let covCol := (List.range gd.vars.length).map (fun i =>
          (List.zipWith (fun b j => b * entryL gd.covariance i j) βs pidx).sum)
      let varY := cpd.variance + (List.zipWith (fun b j =>
          b * (List.zipWith (fun c k => c * entryL gd.covariance j k) βs pidx).sum)
          βs pidx).sum
      some { vars := gd.vars ++ [cpd.var]
             mean := gd.mean ++ [μY]
             covariance :=
               (List.zipWith (fun row c => row ++ [c]) gd.covariance covCol) ++
                 [covCol ++ [varY]] }

/-- Folds `addVariable` over the CPD list in the given (topological)
order, starting from the empty joint distribution. -/
def synth (gd : GaussianDistribution) : List LinearGaussianCPD → Option GaussianDistribution
  | [] => some gd
  | c :: rest =>
      match addVariable gd c with
      | none => none
      | some gd2 => synth gd2 rest

/-- Modelled from the spec: pgmpy's `LinearGaussianBayesianNetwork`, kept
as its topologically ordered list of linear Gaussian CPDs. -/
structure LinearGaussianBayesianNetwork : Type where
  cpds : List LinearGaussianCPD
deriving DecidableEq, Repr

/-- Modelled from the spec: `to_joint_gaussian` synthesizes the joint
GaussianDistribution over all variables by processing the CPDs in
topological order. -/
def LinearGaussianBayesianNetwork.to_joint_gaussian
    (m : LinearGaussianBayesianNetwork) : Option GaussianDistribution :=
  synth { vars := [], mean := [], covariance := [] } m.cpds

/-- The notebook's `cpd1`: `x1 ~ N(1, 4)`. -/
def cpd1 : LinearGaussianCPD := { var := "x1", beta := [1], variance := 4 }

/-- The notebook's `cpd2`: `x2 ~ N(-5 + 0.5·x1, 4)`. -/
def cpd2 : LinearGaussianCPD :=
  { var := "x2", beta := [-5, 1/2], variance := 4, evidence := ["x1"] }

/-- The notebook's `cpd3`: `x3 ~ N(4 - 1·x2, 3)`. -/
def cpd3 : LinearGaussianCPD :=
  { var := "x3", beta := [4, -1], variance := 3, evidence := ["x2"] }

/-- The notebook's 3-node chain model `x1 → x2 → x3`. -/
def chainModel : LinearGaussianBayesianNetwork := { cpds := [cpd1, cpd2, cpd3] }

/-- C1: synthesizing the joint distribution from the 3-node chain of
LinearGaussianCPDs `x1~N(1,4)`, `x2~N(-5+0.5·x1,4)`, `x3~N(4-1·x2,3)`,
processed in topological order, returns the GaussianDistribution over
scope `[x1,x2,x3]` with mean `[1, -4.5, 8.5]` and covariance
`[[4,2,-2],[2,5,-5],[-2,-5,8]]` (notebook cells 49 to 51). -/
theorem C1_chain_to_joint_gaussian :
    chainModel.to_joint_gaussian =
      some { vars := ["x1", "x2", "x3"]
             mean := [1, -9/2, 17/2]
             covariance := [[4, 2, -2], [2, 5, -5], [-2, -5, 8]] } := by
  have e1 : indexIn ["x1"] "x1" = some 0 := by decide
  have e2 : indexIn ["x1", "x2"] "x2" = some 1 := by decide
  simp only [LinearGaussianBayesianNetwork.to_joint_gaussian, chainModel, synth,
    addVariable, parentIdxs, cpd1, cpd2, cpd3, e1, e2, entryL, getV,
    List.range_succ, List.range_zero, List.map_nil, List.map_cons, List.zipWith_cons_cons,
    List.zipWith_nil_right, List.zipWith_nil_left, List.sum_cons, List.sum_nil,
    List.length_cons, List.length_nil, List.getD_cons_zero, List.getD_cons_succ,
    List.getD_nil, List.nil_append, List.cons_append, List.append_nil, List.drop_succ_cons,
    List.drop_zero, Option.some.injEq, GaussianDistribution.mk.injEq]
  norm_num

/-! ## Block-matrix layer over the reals

The general linear-algebra claims (the canonical/Gaussian round trip,
the Schur-complement marginalization and the positive-semidefiniteness
of marginals) quantify over all positive-definite covariances; they are
stated over Mathlib matrices.  A partition of the scope into retained
variables (`c`) and removed/observed variables (`d`) is modelled by
indexing with the sum type `c ⊕ d`, following the block partition in
which the spec states these operations. -/

namespace MatrixModel

open Matrix

variable {c d : Type} [Fintype c] [Fintype d] [DecidableEq c] [DecidableEq d]

/-- Modelled from the spec: `GaussianDistribution.to_canonical`,
`K = Σ⁻¹`, `h = Σ⁻¹μ`,
`g = −0.5·μᵀΣ⁻¹μ − log((2π)^(n/2)·|Σ|^(1/2))`. -/
noncomputable def toCanonical {e : Type} [Fintype e] [DecidableEq e]
    (μ : e → ℝ) (S : Matrix e e ℝ) : Matrix e e ℝ × (e → ℝ) × ℝ :=
  (S⁻¹, S⁻¹ *ᵥ μ,
    -(1 / 2) * (μ ⬝ᵥ (S⁻¹ *ᵥ μ)) -
      Real.log (Real.sqrt ((2 * Real.pi) ^ Fintype.card e * S.det)))

/-- Modelled from the spec: `CanonicalDistribution.to_joint_gaussian`,
`Σ = K⁻¹`, `μ = Σ·h`, discarding `g`. -/
noncomputable def toJointGaussian {e : Type} [Fintype e] [DecidableEq e]
    (K : Matrix e e ℝ) (h : e → ℝ) : Matrix e e ℝ × (e → ℝ) :=
  (K⁻¹, K⁻¹ *ᵥ h)

/-- Modelled from the spec: `GaussianDistribution.marginalize` in block
form: the mean and covariance are restricted to the retained block. -/
def marginalizeGaussian (μ : c ⊕ d → ℝ) (S : Matrix (c ⊕ d) (c ⊕ d) ℝ) :
    (c → ℝ) × Matrix c c ℝ :=
  (fun i => μ (Sum.inl i), S.toBlocks₁₁)

/-- Modelled from the spec: `CanonicalDistribution.marginalize` over the
removed block via the Schur complement:
`K' = Kaa − Kab·Kbb⁻¹·Kba`, `h' = ha − Kab·Kbb⁻¹·hb`,
`g' = g + 0.5·(k·log(2π) − log|Kbb|) + 0.5·hbᵀ·Kbb⁻¹·hb`. -/
noncomputable def marginalizeCanonical (K : Matrix (c ⊕ d) (c ⊕ d) ℝ)
    (h : c ⊕ d → ℝ) (g : ℝ) : Matrix c c ℝ × (c → ℝ) × ℝ :=
  (K.toBlocks₁₁ - K.toBlocks₁₂ * (K.toBlocks₂₂)⁻¹ * K.toBlocks₂₁,
   (fun i => h (Sum.inl i)) - (K.toBlocks₁₂ * (K.toBlocks₂₂)⁻¹) *ᵥ (fun j => h (Sum.inr j)),
   g + (1 / 2) * (Fintype.card d * Real.log (2 * Real.pi) - Real.log (K.toBlocks₂₂).det) +
     (1 / 2) * ((fun j => h (Sum.inr j)) ⬝ᵥ ((K.toBlocks₂₂)⁻¹ *ᵥ (fun j => h (Sum.inr j)))))

/-- The `1,1` block of a Hermitian matrix is Hermitian. -/
lemma isHermitian_toBlocks₁₁ {M : Matrix (c ⊕ d) (c ⊕ d) ℝ}
    (hM : M.IsHermitian) : (M.toBlocks₁₁).IsHermitian := by
  ext i j
  exact congrFun (congrFun hM (Sum.inl i)) (Sum.inl j)

/-- The `2,2` block of a Hermitian matrix is Hermitian. -/
lemma isHermitian_toBlocks₂₂ {M : Matrix (c ⊕ d) (c ⊕ d) ℝ}
    (hM : M.IsHermitian) : (M.toBlocks₂₂).IsHermitian := by
  ext i j
  exact congrFun (congrFun hM (Sum.inr i)) (Sum.inr j)

/-- The quadratic form of the `1,1` block at `x` is the quadratic form of
the whole matrix at the extension of `x` by zero. -/
lemma dotProduct_sum_inl (M : Matrix (c ⊕ d) (c ⊕ d) ℝ) (x : c → ℝ) :
    Sum.elim x 0 ⬝ᵥ (M *ᵥ Sum.elim x 0) = x ⬝ᵥ (M.toBlocks₁₁ *ᵥ x) := by
  simp [Matrix.dotProduct, Matrix.mulVec, Fintype.sum_sum_type, Matrix.toBlocks₁₁,
    Finset.mul_sum]

/-- The quadratic form of the `2,2` block at `x` is the quadratic form of
the whole matrix at the extension of `x` by zero. -/
lemma dotProduct_sum_inr (M : Matrix (c ⊕ d) (c ⊕ d) ℝ) (x : d → ℝ) :
    Sum.elim 0 x ⬝ᵥ (M *ᵥ Sum.elim 0 x) = x ⬝ᵥ (M.toBlocks₂₂ *ᵥ x) := by
  simp [Matrix.dotProduct, Matrix.mulVec, Fintype.sum_sum_type, Matrix.toBlocks₂₂,
    Finset.mul_sum]

/-- A principal block of a positive-definite matrix is positive
definite. -/
lemma posDef_toBlocks₂₂ {M : Matrix (c ⊕ d) (c ⊕ d) ℝ}
    (hM : M.PosDef) : (M.toBlocks₂₂).PosDef := by
  refine ⟨isHermitian_toBlocks₂₂ hM.1, fun x hx => ?_⟩
  have hy : Sum.elim (0 : c → ℝ) x ≠ 0 := by
    intro h0
    apply hx
    funext j
    simpa using congrFun h0 (Sum.inr j)
  have h := hM.2 (Sum.elim 0 x) hy
  rw [star_trivial, dotProduct_sum_inr M x] at h
  rwa [star_trivial]

/-- A principal block of a positive-semidefinite matrix is positive
semidefinite. -/
lemma posSemidef_toBlocks₁₁ {M : Matrix (c ⊕ d) (c ⊕ d) ℝ}
    (hM : M.PosSemidef) : (M.toBlocks₁₁).PosSemidef := by
  refine ⟨isHermitian_toBlocks₁₁ hM.1, fun x => ?_⟩
  have h := hM.2 (Sum.elim x 0)
  rw [star_trivial, dotProduct_sum_inl M x] at h
  rwa [star_trivial]

/-- Modelled from the spec: `GaussianDistribution.reduce` in block form:
conditioning the block-partitioned Gaussian on the observed block `xb`,
the conditional over the retained block has mean
`μa + Σab·Σbb⁻¹·(xb − μb)` and covariance `Σaa − Σab·Σbb⁻¹·Σba`. -/
noncomputable def reduceGaussian (μ : c ⊕ d → ℝ) (S : Matrix (c ⊕ d) (c ⊕ d) ℝ)
    (xb : d → ℝ) : (c → ℝ) × Matrix c c ℝ :=
  ((fun i => μ (Sum.inl i)) +
      (S.toBlocks₁₂ * (S.toBlocks₂₂)⁻¹) *ᵥ (xb - fun j => μ (Sum.inr j)),
   S.toBlocks₁₁ - S.toBlocks₁₂ * (S.toBlocks₂₂)⁻¹ * S.toBlocks₂₁)

/-- In a Hermitian block matrix the lower-left block is the conjugate
transpose of the upper-right block. -/
lemma toBlocks₂₁_eq_conjTranspose {M : Matrix (c ⊕ d) (c ⊕ d) ℝ}
    (hM : M.IsHermitian) : M.toBlocks₂₁ = (M.toBlocks₁₂)ᴴ := by
  ext j i
  exact (congrFun (congrFun hM (Sum.inr j)) (Sum.inl i)).symm

/-- The covariance produced by reduction (the Schur complement
`Σaa − Σab·Σbb⁻¹·Σba`) of a positive-definite covariance is positive
semidefinite. -/
lemma posSemidef_reduceGaussian (μ : c ⊕ d → ℝ) (xb : d → ℝ)
    {S : Matrix (c ⊕ d) (c ⊕ d) ℝ} (hS : S.PosDef) :
    ((reduceGaussian μ S xb).2).PosSemidef := by
  have hbb : (S.toBlocks₂₂).PosDef := posDef_toBlocks₂₂ hS
  have h21 : S.toBlocks₂₁ = (S.toBlocks₁₂)ᴴ := toBlocks₂₁_eq_conjTranspose hS.1
  letI : Invertible (S.toBlocks₂₂) :=
    (S.toBlocks₂₂).invertibleOfIsUnitDet hbb.det_pos.ne'.isUnit
  have hfb : (Matrix.fromBlocks S.toBlocks₁₁ S.toBlocks₁₂
      (S.toBlocks₁₂)ᴴ S.toBlocks₂₂).PosSemidef := by
    rw [← h21, Matrix.fromBlocks_toBlocks]
    exact hS.posSemidef
  have hschur := (Matrix.PosSemidef.fromBlocks₂₂ S.toBlocks₁₁ S.toBlocks₁₂ hbb).mp hfb
  rw [← h21] at hschur
  exact hschur

/-- C3: for every positive-definite covariance and any mean, converting
to canonical form (`K = Σ⁻¹`, `h = Σ⁻¹μ`, together with the scalar `g`)
and applying `to_joint_gaussian` (`Σ = K⁻¹`, `μ = Σ·h`) reproduces the
original mean and covariance (exactly, hence within any tolerance). -/
theorem C3_canonical_round_trip {e : Type} [Fintype e] [DecidableEq e]
    (μ : e → ℝ) (S : Matrix e e ℝ) (hS : S.PosDef) :
    toJointGaussian (toCanonical μ S).1 (toCanonical μ S).2.1 = (S, μ) := by
  have hdet : IsUnit S.det := hS.det_pos.ne'.isUnit
  unfold toJointGaussian toCanonical
  refine Prod.ext ?_ ?_
  · simpa using Matrix.nonsing_inv_nonsing_inv S hdet
  · show S⁻¹⁻¹ *ᵥ (S⁻¹ *ᵥ μ) = μ
    rw [Matrix.nonsing_inv_nonsing_inv S hdet, Matrix.mulVec_mulVec,
      Matrix.mul_nonsing_inv S hdet, Matrix.one_mulVec]

/-- Witness for C3: the round trip at the 1-dimensional standard normal
(identity covariance, mean `3`). -/
theorem C3_canonical_round_trip_witness :
    (1 : Matrix (Fin 1) (Fin 1) ℝ).PosDef ∧
    toJointGaussian (toCanonical (fun _ => (3 : ℝ)) (1 : Matrix (Fin 1) (Fin 1) ℝ)).1
        (toCanonical (fun _ => (3 : ℝ)) (1 : Matrix (Fin 1) (Fin 1) ℝ)).2.1 =
      (1, fun _ => (3 : ℝ)) :=
  ⟨Matrix.PosDef.one, C3_canonical_round_trip (fun _ => (3 : ℝ)) 1 Matrix.PosDef.one⟩

end MatrixModel

/-- The dimension invariant of a GaussianDistribution: mean length and
covariance dimensions all equal the scope length. -/
def wfGaussian (gd : GaussianDistribution) : Prop :=
  gd.mean.length = gd.vars.length ∧
  gd.covariance.length = gd.vars.length ∧
  ∀ r ∈ gd.covariance, r.length = gd.vars.length

/-- C6 amended: construction and product perform no validation (the
counterexample above), but the operations preserve the invariant: for a
positive-definite covariance, both the conditional covariance produced
by reduction (the Schur complement `Σaa − Σab·Σbb⁻¹·Σba`, defined since
`Σbb` is then invertible) and the marginal covariance (block
restriction) are positive semidefinite, in particular symmetric; and in
the list layer the output of `reduce` and of `marginalize` always
satisfies the dimension invariant
`mean length = covariance dimension = scope length`. -/
theorem C6_operations_preserve_invariant {c d : Type} [Fintype c] [Fintype d]
    [DecidableEq c] [DecidableEq d]
    (μ : c ⊕ d → ℝ) (xb : d → ℝ) (S : Matrix (c ⊕ d) (c ⊕ d) ℝ) (hS : S.PosDef) :
    ((MatrixModel.reduceGaussian μ S xb).2).PosSemidef ∧
    ((MatrixModel.marginalizeGaussian μ S).2).PosSemidef ∧
    (∀ (gd : GaussianDistribution) (obs : List (String × ℚ)),
      wfGaussian (gd.reduce obs)) ∧
    (∀ (gd : GaussianDistribution) (vs : List String),
      wfGaussian (gd.marginalize vs)) := by
  refine ⟨MatrixModel.posSemidef_reduceGaussian μ xb hS,
    MatrixModel.posSemidef_toBlocks₁₁ hS.posSemidef, fun gd obs => ?_, fun gd vs => ?_⟩
  · refine ⟨by simp [GaussianDistribution.reduce], by simp [GaussianDistribution.reduce], ?_⟩
    intro r hr
    simp only [GaussianDistribution.reduce, List.mem_map] at hr
    obtain ⟨i, _, rfl⟩ := hr
    simp [GaussianDistribution.reduce]
  · refine ⟨by simp [GaussianDistribution.marginalize], by simp [GaussianDistribution.marginalize], ?_⟩
    intro r hr
    simp only [GaussianDistribution.marginalize, List.mem_map] at hr
    obtain ⟨i, _, rfl⟩ := hr
    simp [GaussianDistribution.marginalize]

/-- Witness for C6 amended: the identity covariance over a two-element
scope is positive definite; reduction on the second block and
marginalization both keep the invariant, and the notebook's `dis1`
reduced on `x3` or marginalized over `x2` keeps the dimension
invariant. -/
theorem C6_operations_preserve_invariant_witness :
    (1 : Matrix (Fin 1 ⊕ Fin 1) (Fin 1 ⊕ Fin 1) ℝ).PosDef ∧
    ((MatrixModel.reduceGaussian (fun _ => (0 : ℝ))
        (1 : Matrix (Fin 1 ⊕ Fin 1) (Fin 1 ⊕ Fin 1) ℝ) (fun _ => 2)).2).PosSemidef ∧
    ((MatrixModel.marginalizeGaussian (fun _ => (0 : ℝ))
        (1 : Matrix (Fin 1 ⊕ Fin 1) (Fin 1 ⊕ Fin 1) ℝ)).2).PosSemidef ∧
    wfGaussian (dis1.reduce [("x3", 1)]) ∧
    wfGaussian (dis1.marginalize ["x2"]) :=
  ⟨Matrix.PosDef.one,
   (C6_operations_preserve_invariant (fun _ => (0 : ℝ)) (fun _ => 2) 1 Matrix.PosDef.one).1,
   (C6_operations_preserve_invariant (fun _ => (0 : ℝ)) (fun _ => (2 : ℝ)) 1
     Matrix.PosDef.one).2.1,
   (C6_operations_preserve_invariant (fun _ => (0 : ℝ)) (fun _ => (2 : ℝ))
     (1 : Matrix (Fin 1 ⊕ Fin 1) (Fin 1 ⊕ Fin 1) ℝ) Matrix.PosDef.one).2.2.1
     dis1 [("x3", 1)],
   (C6_operations_preserve_invariant (fun _ => (0 : ℝ)) (fun _ => (2 : ℝ))
     (1 : Matrix (Fin 1 ⊕ Fin 1) (Fin 1 ⊕ Fin 1) ℝ) Matrix.PosDef.one).2.2.2
     dis1 ["x2"]⟩

namespace MatrixModel

open Matrix

variable {c d : Type} [Fintype c] [Fintype d] [DecidableEq c] [DecidableEq d]

/-- Component of a block matrix-vector product at a retained index. -/
lemma mulVec_apply_inl (M : Matrix (c ⊕ d) (c ⊕ d) ℝ) (x : c ⊕ d → ℝ) (i : c) :
    (M *ᵥ x) (Sum.inl i) =
      (M.toBlocks₁₁ *ᵥ (fun i => x (Sum.inl i))) i +
        (M.toBlocks₁₂ *ᵥ (fun j => x (Sum.inr j))) i := by
  simp [Matrix.mulVec, Matrix.dotProduct, Fintype.sum_sum_type,
    Matrix.toBlocks₁₁, Matrix.toBlocks₁₂]

/-- Component of a block matrix-vector product at a removed index. -/
lemma mulVec_apply_inr (M : Matrix (c ⊕ d) (c ⊕ d) ℝ) (x : c ⊕ d → ℝ) (j : d) :
    (M *ᵥ x) (Sum.inr j) =
      (M.toBlocks₂₁ *ᵥ (fun i => x (Sum.inl i))) j +
        (M.toBlocks₂₂ *ᵥ (fun k => x (Sum.inr k))) j := by
  simp [Matrix.mulVec, Matrix.dotProduct, Fintype.sum_sum_type,
    Matrix.toBlocks₂₁, Matrix.toBlocks₂₂]

/-- C8: for every positive-definite covariance, marginalizing the
GaussianDistribution directly (restriction of mean and covariance to the
retained block) agrees exactly (hence within any tolerance) with
converting to canonical form, marginalizing through the Schur-complement
formula `K' = Kaa − Kab·Kbb⁻¹·Kba`, `h' = ha − Kab·Kbb⁻¹·hb`, and
converting back to a GaussianDistribution. -/
theorem C8_marginalization_consistency (μ : c ⊕ d → ℝ)
    (S : Matrix (c ⊕ d) (c ⊕ d) ℝ) (hS : S.PosDef) :
    toJointGaussian
        (marginalizeCanonical (toCanonical μ S).1 (toCanonical μ S).2.1 (toCanonical μ S).2.2).1
        (marginalizeCanonical (toCanonical μ S).1 (toCanonical μ S).2.1 (toCanonical μ S).2.2).2.1 =
      ((marginalizeGaussian μ S).2, (marginalizeGaussian μ S).1) := by
  have hdet : IsUnit S.det := hS.det_pos.ne'.isUnit
  have hKS : S⁻¹ * S = 1 := Matrix.nonsing_inv_mul S hdet
  have hKpd : (S⁻¹).PosDef := hS.inv
  have hbb : ((S⁻¹).toBlocks₂₂).PosDef := posDef_toBlocks₂₂ hKpd
  have hbbdet : IsUnit ((S⁻¹).toBlocks₂₂).det := hbb.det_pos.ne'.isUnit
  have hmul : (Matrix.fromBlocks (S⁻¹).toBlocks₁₁ (S⁻¹).toBlocks₁₂
      (S⁻¹).toBlocks₂₁ (S⁻¹).toBlocks₂₂) *
      (Matrix.fromBlocks S.toBlocks₁₁ S.toBlocks₁₂ S.toBlocks₂₁ S.toBlocks₂₂) = 1 := by
    rw [Matrix.fromBlocks_toBlocks, Matrix.fromBlocks_toBlocks]
    exact hKS
  rw [Matrix.fromBlocks_multiply, ← Matrix.fromBlocks_one] at hmul
  have h11 : (S⁻¹).toBlocks₁₁ * S.toBlocks₁₁ + (S⁻¹).toBlocks₁₂ * S.toBlocks₂₁ = 1 := by
    simpa only [Matrix.toBlocks_fromBlocks₁₁] using congrArg Matrix.toBlocks₁₁ hmul
  have h21 : (S⁻¹).toBlocks₂₁ * S.toBlocks₁₁ + (S⁻¹).toBlocks₂₂ * S.toBlocks₂₁ = 0 := by
    simpa only [Matrix.toBlocks_fromBlocks₂₁] using congrArg Matrix.toBlocks₂₁ hmul
  have hb : (S⁻¹).toBlocks₂₂ * S.toBlocks₂₁ = -((S⁻¹).toBlocks₂₁ * S.toBlocks₁₁) :=
    eq_neg_of_add_eq_zero_left (by rw [add_comm]; exact h21)
  have hSba : S.toBlocks₂₁ =
      -(((S⁻¹).toBlocks₂₂)⁻¹ * ((S⁻¹).toBlocks₂₁ * S.toBlocks₁₁)) := by
    calc S.toBlocks₂₁
        = (((S⁻¹).toBlocks₂₂)⁻¹ * (S⁻¹).toBlocks₂₂) * S.toBlocks₂₁ := by
          rw [Matrix.nonsing_inv_mul _ hbbdet, Matrix.one_mul]
      _ = ((S⁻¹).toBlocks₂₂)⁻¹ * ((S⁻¹).toBlocks₂₂ * S.toBlocks₂₁) := by
          rw [Matrix.mul_assoc]
      _ = ((S⁻¹).toBlocks₂₂)⁻¹ * -((S⁻¹).toBlocks₂₁ * S.toBlocks₁₁) := by rw [hb]
      _ = -(((S⁻¹).toBlocks₂₂)⁻¹ * ((S⁻¹).toBlocks₂₁ * S.toBlocks₁₁)) := by
          rw [Matrix.mul_neg]
  have hKS11 : ((S⁻¹).toBlocks₁₁ -
      (S⁻¹).toBlocks₁₂ * ((S⁻¹).toBlocks₂₂)⁻¹ * (S⁻¹).toBlocks₂₁) * S.toBlocks₁₁ = 1 := by
    have h2 := h11
    rw [hSba, Matrix.mul_neg, ← Matrix.mul_assoc, ← Matrix.mul_assoc] at h2
    rw [Matrix.sub_mul, sub_eq_add_neg]
    exact h2
  have hinv11 : ((S⁻¹).toBlocks₁₁ -
      (S⁻¹).toBlocks₁₂ * ((S⁻¹).toBlocks₂₂)⁻¹ * (S⁻¹).toBlocks₂₁)⁻¹ = S.toBlocks₁₁ :=
    Matrix.inv_eq_right_inv hKS11
  have hS11K : S.toBlocks₁₁ * ((S⁻¹).toBlocks₁₁ -
      (S⁻¹).toBlocks₁₂ * ((S⁻¹).toBlocks₂₂)⁻¹ * (S⁻¹).toBlocks₂₁) = 1 :=
    Matrix.mul_eq_one_comm.mp hKS11
  have hha : (fun i => (S⁻¹ *ᵥ μ) (Sum.inl i)) =
      (S⁻¹).toBlocks₁₁ *ᵥ (fun i => μ (Sum.inl i)) +
        (S⁻¹).toBlocks₁₂ *ᵥ (fun j => μ (Sum.inr j)) := by
    funext i
    rw [mulVec_apply_inl]
    rfl
  have hhb : (fun j => (S⁻¹ *ᵥ μ) (Sum.inr j)) =
      (S⁻¹).toBlocks₂₁ *ᵥ (fun i => μ (Sum.inl i)) +
        (S⁻¹).toBlocks₂₂ *ᵥ (fun k => μ (Sum.inr k)) := by
    funext j
    rw [mulVec_apply_inr]
    rfl
  have hm : (marginalizeCanonical (toCanonical μ S).1 (toCanonical μ S).2.1
      (toCanonical μ S).2.2).2.1 =
      ((S⁻¹).toBlocks₁₁ -
        (S⁻¹).toBlocks₁₂ * ((S⁻¹).toBlocks₂₂)⁻¹ * (S⁻¹).toBlocks₂₁) *ᵥ
          (fun i => μ (Sum.inl i)) := by
    show (fun i => (S⁻¹ *ᵥ μ) (Sum.inl i)) -
        ((S⁻¹).toBlocks₁₂ * ((S⁻¹).toBlocks₂₂)⁻¹) *ᵥ (fun j => (S⁻¹ *ᵥ μ) (Sum.inr j)) = _
    rw [hha, hhb, Matrix.mulVec_add, Matrix.mulVec_mulVec, Matrix.mulVec_mulVec,
      Matrix.mul_assoc ((S⁻¹).toBlocks₁₂) (((S⁻¹).toBlocks₂₂)⁻¹) ((S⁻¹).toBlocks₂₂),
      Matrix.nonsing_inv_mul _ hbbdet, Matrix.mul_one, Matrix.sub_mulVec]
    abel
  show (_, _) = (_, _)
  refine Prod.ext ?_ ?_
  · show (marginalizeCanonical (toCanonical μ S).1 (toCanonical μ S).2.1
        (toCanonical μ S).2.2).1⁻¹ = S.toBlocks₁₁
    exact hinv11
  · show (marginalizeCanonical (toCanonical μ S).1 (toCanonical μ S).2.1
        (toCanonical μ S).2.2).1⁻¹ *ᵥ _ = _
    rw [hm]
    show ((S⁻¹).toBlocks₁₁ -
        (S⁻¹).toBlocks₁₂ * ((S⁻¹).toBlocks₂₂)⁻¹ * (S⁻¹).toBlocks₂₁)⁻¹ *ᵥ _ = _
    rw [hinv11, Matrix.mulVec_mulVec, hS11K, Matrix.one_mulVec]
    rfl

/-- The mean vector `(5, 7)` over the `1 ⊕ 1` scope used in the C8
witness. -/
def wMean : Fin 1 ⊕ Fin 1 → ℝ :=
  Sum.elim (fun _ => 5) (fun _ => 7)

/-- Witness for C8: the identity covariance over a `1 ⊕ 1` scope with
mean `(5, 7)` is positive definite and the two marginalization routes
coincide on it. -/
theorem C8_marginalization_consistency_witness :
    (1 : Matrix (Fin 1 ⊕ Fin 1) (Fin 1 ⊕ Fin 1) ℝ).PosDef ∧
    toJointGaussian
        (marginalizeCanonical
          (toCanonical wMean (1 : Matrix (Fin 1 ⊕ Fin 1) (Fin 1 ⊕ Fin 1) ℝ)).1
          (toCanonical wMean 1).2.1
          (toCanonical wMean 1).2.2).1
        (marginalizeCanonical
          (toCanonical wMean (1 : Matrix (Fin 1 ⊕ Fin 1) (Fin 1 ⊕ Fin 1) ℝ)).1
          (toCanonical wMean 1).2.1
          (toCanonical wMean 1).2.2).2.1 =
      ((marginalizeGaussian wMean 1).2, (marginalizeGaussian wMean 1).1) :=
  ⟨Matrix.PosDef.one, C8_marginalization_consistency wMean 1 Matrix.PosDef.one⟩

end MatrixModel

/-! ## The multivariate normal density (C4) -/

/-- Modelled from the spec: `GaussianDistribution.pdf`, the closed-form
multivariate normal density
`p(x) = exp(-0.5·(x-μ)ᵀΣ⁻¹(x-μ)) / ((2π)^(n/2)·|Σ|^(1/2))`; the
normalizer is written as `sqrt((2π)^n·|Σ|)`.  The quadratic form and the
determinant are computed exactly in `ℚ` and cast to `ℝ`. -/
noncomputable def GaussianDistribution.pdf (gd : GaussianDistribution) (x : List ℚ) : ℝ :=
  Real.exp (-(1 / 2 : ℝ) *
      ((dotL (vecSubL x gd.mean) (matVecL (matInvL gd.covariance) (vecSubL x gd.mean)) : ℚ) : ℝ)) /
    Real.sqrt ((2 * Real.pi) ^ gd.vars.length * ((detL gd.covariance : ℚ) : ℝ))

/-- C4: the notebook's 3-variable GaussianDistribution with mean
`[1,-3,4]` and covariance `[[4,2,-2],[2,5,-5],[-2,-5,8]]` evaluates
`pdf([0,0,0])` to approximately `0.0014805631` (within `10⁻⁹`; the
recorded output is `0.0014805631279234139`). -/
theorem C4_pdf_value : |dis1.pdf [0, 0, 0] - 0.0014805631| < 1 / 10 ^ 9 := by
  have hK1 : matInvL dis1.covariance =
      [[5/16, -1/8, 0], [-1/8, 7/12, 1/3], [0, 1/3, 1/3]] := by
    simp only [dis1, matInvL, detL, detN, dropNth, List.range_succ, List.range_zero,
      List.map_nil, List.map_cons, List.map_append, List.sum_cons, List.sum_nil,
      List.length_cons, List.length_nil, List.getD_cons_zero, List.getD_cons_succ,
      List.take_succ_cons, List.take_zero, List.drop_succ_cons, List.drop_zero,
      List.nil_append, List.cons_append, List.getD_nil]
    norm_num
  have hqf : dotL (vecSubL [0, 0, 0] dis1.mean)
      (matVecL (matInvL dis1.covariance) (vecSubL [0, 0, 0] dis1.mean)) = 175 / 48 := by
    rw [hK1]
    norm_num [dis1, dotL, vecSubL, matVecL, List.zipWith_cons_cons, List.zipWith_nil_right,
      List.zipWith_nil_left, List.map_cons, List.map_nil, List.sum_cons, List.sum_nil]
  have hdetd : detL dis1.covariance = 48 := by
    simp only [dis1, detL, detN, dropNth, List.range_succ, List.range_zero,
      List.map_nil, List.map_cons, List.map_append, List.sum_cons, List.sum_nil,
      List.length_cons, List.length_nil, List.getD_cons_zero, List.getD_cons_succ,
      List.take_succ_cons, List.take_zero, List.drop_succ_cons, List.drop_zero,
      List.nil_append, List.cons_append, List.getD_nil]
    norm_num
  have hlen3 : dis1.vars.length = 3 := by simp [dis1]
  have hpdf : dis1.pdf [0, 0, 0] =
      Real.exp (-(175 / 96 : ℝ)) / Real.sqrt ((2 * Real.pi) ^ 3 * 48) := by
    rw [GaussianDistribution.pdf, hqf, hdetd, hlen3]
    norm_num
  -- Taylor bracket for exp(79/96)
  have habs : |(79 : ℝ) / 96| = 79 / 96 := abs_of_nonneg (by norm_num)
  have hb := Real.exp_bound (x := (79 : ℝ) / 96) (by rw [habs]; norm_num)
    (n := 12) (by norm_num)
  rw [habs] at hb
  norm_num [Finset.sum_range_succ, Nat.factorial] at hb
  obtain ⟨hb1, hb2⟩ := abs_le.mp hb
  have hexplo : (2.277131795 : ℝ) < Real.exp ((79 : ℝ) / 96) := by linarith
  have hexphi : Real.exp ((79 : ℝ) / 96) < (2.277131796 : ℝ) := by linarith
  -- bracket for exp(175/96) via exp(1)·exp(79/96)
  have h175 : Real.exp ((175 : ℝ) / 96) = Real.exp 1 * Real.exp ((79 : ℝ) / 96) := by
    rw [← Real.exp_add]
    norm_num
  have hE1lo := Real.exp_one_gt_d9
  have hE1hi := Real.exp_one_lt_d9
  have hElo : (2.7182818283 * 2.277131795 : ℝ) < Real.exp ((175 : ℝ) / 96) := by
    rw [h175]
    calc (2.7182818283 * 2.277131795 : ℝ)
        < Real.exp 1 * 2.277131795 :=
          mul_lt_mul_of_pos_right hE1lo (by norm_num)
      _ ≤ Real.exp 1 * Real.exp ((79 : ℝ) / 96) :=
          mul_le_mul_of_nonneg_left (le_of_lt hexplo) (le_of_lt (Real.exp_pos 1))
  have hEhi : Real.exp ((175 : ℝ) / 96) < (2.7182818286 * 2.277131796 : ℝ) := by
    rw [h175]
    calc Real.exp 1 * Real.exp ((79 : ℝ) / 96)
        < Real.exp 1 * 2.277131796 :=
          mul_lt_mul_of_pos_left hexphi (Real.exp_pos 1)
      _ ≤ (2.7182818286 * 2.277131796 : ℝ) :=
          mul_le_mul_of_nonneg_right (le_of_lt hE1hi) (by norm_num)
  -- bracket for the normalizer sqrt((2π)^3·48) = sqrt(384·π³)
  have hplo := Real.pi_gt_d20
  have hphi := Real.pi_lt_d20
  have hcube_lo : (3.14159265358979323846 : ℝ) ^ 3 < Real.pi ^ 3 := by
    gcongr
  have hcube_hi : Real.pi ^ 3 < (3.14159265358979323847 : ℝ) ^ 3 := by
    gcongr
  have hDeq : ((2 * Real.pi) ^ 3 * 48 : ℝ) = 384 * Real.pi ^ 3 := by ring
  have hrlo : (109.116497 : ℝ) < Real.sqrt ((2 * Real.pi) ^ 3 * 48) := by
    rw [hDeq, show (109.116497 : ℝ) = Real.sqrt (109.116497 ^ 2) from
      (Real.sqrt_sq (by norm_num)).symm]
    apply Real.sqrt_lt_sqrt (by norm_num)
    nlinarith [hcube_lo]
  have hrhi : Real.sqrt ((2 * Real.pi) ^ 3 * 48) < (109.116501 : ℝ) := by
    rw [hDeq, show (109.116501 : ℝ) = Real.sqrt (109.116501 ^ 2) from
      (Real.sqrt_sq (by norm_num)).symm]
    apply Real.sqrt_lt_sqrt (by positivity)
    nlinarith [hcube_hi]
  have hspos : (0 : ℝ) < Real.sqrt ((2 * Real.pi) ^ 3 * 48) :=
    lt_trans (by norm_num) hrlo
  have hEpos : (0 : ℝ) < Real.exp ((175 : ℝ) / 96) := Real.exp_pos _
  rw [hpdf, Real.exp_neg, abs_sub_lt_iff]
  constructor
  · have hub : (Real.exp ((175 : ℝ) / 96))⁻¹ / Real.sqrt ((2 * Real.pi) ^ 3 * 48) <
        (2.7182818283 * 2.277131795 : ℝ)⁻¹ * (109.116497 : ℝ)⁻¹ := by
      rw [div_eq_mul_inv]
      apply mul_lt_mul
      · exact inv_lt_inv_of_lt (by norm_num) hElo
      · exact inv_le_inv_of_le (by norm_num) (le_of_lt hrlo)
      · positivity
      · positivity
    have hnum : ((2.7182818283 * 2.277131795 : ℝ)⁻¹ * (109.116497 : ℝ)⁻¹) <
        0.0014805631 + 1 / 10 ^ 9 := by norm_num
    linarith
  · have hlb : (2.7182818286 * 2.277131796 : ℝ)⁻¹ * (109.116501 : ℝ)⁻¹ <
        (Real.exp ((175 : ℝ) / 96))⁻¹ / Real.sqrt ((2 * Real.pi) ^ 3 * 48) := by
      rw [div_eq_mul_inv]
      apply mul_lt_mul
      · exact inv_lt_inv_of_lt hEpos hEhi
      · exact inv_le_inv_of_le hspos (le_of_lt hrhi)
      · positivity
      · positivity
    have hnum : (0.0014805631 - 1 / 10 ^ 9 : ℝ) <
        (2.7182818286 * 2.277131796 : ℝ)⁻¹ * (109.116501 : ℝ)⁻¹ := by norm_num
    linarith
